import Mathlib

/-!
Verification of the same-origin web crawler in `src/main.py`.

The crawler is shallowly embedded: `requests.get` plus BeautifulSoup parsing
is one opaque environment function `fetch` (returning `none` when the HTTP
request raises, and otherwise the page's extracted text together with the
ordered list of `href` attribute values of its `<a>` tags, with `""` standing
for a missing/empty attribute, which Python's `if href:` skips);
`urllib.parse.urljoin` is the environment function `urljoin` (returning `none`
when it raises, as it does on malformed hrefs such as `http:/\x7bbad`).
`re.search(r'\b' + re.escape(kw) + r'\b', text, re.IGNORECASE)` is modelled by
`reSearchWord` below: since the keyword is escaped, the pattern is a literal
string bracketed by word boundaries, and `\b` matches exactly at a
word/non-word transition.  Characters are modelled at ASCII precision
(Python's `\w` also accepts non-ASCII word characters; every string in the
program's tests and in the claims is ASCII).
-/

/-- ASCII model of Python's regex word character class `\w`:
letters, digits and underscore. -/
def isWordChar (c : Char) : Bool :=
  (97 ≤ c.toNat && c.toNat ≤ 122) || (65 ≤ c.toNat && c.toNat ≤ 90) ||
    (48 ≤ c.toNat && c.toNat ≤ 57) || (c.toNat == 95)

/-- ASCII lower-casing, the case folding performed by `re.IGNORECASE` on the
strings appearing in this program. -/
def lowerChar (c : Char) : Char :=
  if 65 ≤ c.toNat && c.toNat ≤ 90 then Char.ofNat (c.toNat + 32) else c

/-- Case-insensitive literal match of the keyword characters against an
initial segment of the remaining text. -/
def matchChunk : List Char → List Char → Bool
  | [], _ => true
  | _ :: _, [] => false
  | k :: ks, c :: cs => (lowerChar c == lowerChar k) && matchChunk ks cs

/-- Whether the character at position `p` of the text is a word character
(out-of-range positions count as non-word, as in `re`). -/
def wordAt (cs : List Char) (p : Nat) : Bool :=
  isWordChar (cs.getD p ' ')

/-- Python's `\b`: a word boundary holds at position `p` iff exactly one of
the character before `p` and the character at `p` is a word character. -/
def boundaryAt (cs : List Char) (p : Nat) : Bool :=
  (decide (p ≠ 0) && wordAt cs (p - 1)) != wordAt cs p

/-- The escaped-keyword pattern `\b kw \b` matches at position `p`. -/
def matchesAt (kw cs : List Char) (p : Nat) : Bool :=
  matchChunk kw (cs.drop p) && boundaryAt cs p && boundaryAt cs (p + kw.length)

/-- Model of `re.search(r'\b' + re.escape(keyword) + r'\b', text,
re.IGNORECASE) is not None`: the pattern matches at some position of the
text. -/
def reSearchWord (kw text : String) : Bool :=
  (List.range (text.data.length + 1)).any (fun p => matchesAt kw.data text.data p)

/-- Modelled from the spec's words (for comparison with `reSearchWord`, which
comes from the source): the keyword occurs in the text case-insensitively and
the occurrence is not adjacent to a word character on either side. -/
def specWholeWordMatch (kw text : String) : Bool :=
  (List.range (text.data.length + 1)).any (fun p =>
    matchChunk kw.data (text.data.drop p) &&
      !(decide (p ≠ 0) && wordAt text.data (p - 1)) &&
      !wordAt text.data (p + kw.data.length))

/-- The crawler's mutable state: `visited` and `index` are the fields of
`WebCrawler` (`visited` as a list, most recently added first; `index` as an
insertion-ordered association list, the model of a Python dict).  `fetchLog`
instruments the embedding: it records each URL at the moment
`requests.get(url)` is called, most recent first. -/
structure CrawlState where
  visited : List String
  index : List (String × String)
  fetchLog : List String
deriving DecidableEq

/-- A freshly constructed `WebCrawler()`. -/
def initState : CrawlState := ⟨[], [], []⟩

/-- The external collaborators: `fetch` models `requests.get` followed by
BeautifulSoup text/link extraction (`none` = the request raised); `urljoin`
models `urllib.parse.urljoin` (`none` = it raised). -/
structure CrawlEnv where
  fetch : String → Option (String × List String)
  urljoin : String → String → Option String

/-- Python's `base_url or url`: `base_url` unless it is `None` or falsy. -/
def pyOr (base : Option String) (url : String) : String :=
  match base with
  | none => url
  | some b => if b = "" then url else b

/-- Python's `str.startswith`: character-level prefix test. -/
def pyStartsWith (s p : String) : Bool :=
  List.isPrefixOf p.data s.data

/-- Python dict assignment `d[k] = v`: replace in place if the key exists,
otherwise append (insertion order preserved). -/
def dictSet : List (String × String) → String → String → List (String × String)
  | [], k, v => [(k, v)]
  | e :: rest, k, v => if e.1 = k then (k, v) :: rest else e :: dictSet rest k v

/-- The `for link in soup.find_all('a')` loop body of `WebCrawler.crawl`:
skip falsy hrefs, resolve with `urljoin`, and recurse (via `recur`) when the
resolved URL passes the `startswith` scope test.  A `urljoin` exception is
caught by the per-page `except`, so it ends the page's loop: the current
state is returned and the remaining links are dropped. -/
def crawlLinks (env : CrawlEnv) (recur : String → CrawlState → CrawlState)
    (base : String) : List String → CrawlState → CrawlState
  | [], s => s
  | href :: rest, s =>
    if href = "" then crawlLinks env recur base rest s
    else
      match env.urljoin base href with
      | none => s
      | some abs =>
        crawlLinks env recur base rest
          (if pyStartsWith abs base then recur abs s else s)

/-- `WebCrawler.crawl(url, base_url)`, with a fuel argument bounding the
recursion depth (any fuel larger than the number of distinct reachable URLs
is enough; see the termination theorem).  The body follows the source line by
line: return if visited; add to visited; fetch (logged); on fetch failure the
exception is caught and the call returns; on success assign
`index[url] = text` and walk the links with base `base_url or url`. -/
def crawl (env : CrawlEnv) : Nat → String → Option String → CrawlState → CrawlState
  | 0, _, _, s => s
  | Nat.succ fuel, url, base, s =>
    if url ∈ s.visited then s
    else
      match env.fetch url with
      | none => ⟨url :: s.visited, s.index, url :: s.fetchLog⟩
      | some (text, hrefs) =>
        crawlLinks env (fun u t => crawl env fuel u (some (pyOr base url)) t)
          (pyOr base url) hrefs
          ⟨url :: s.visited, dictSet s.index url text, url :: s.fetchLog⟩

/-- `WebCrawler.search(keyword)`: the URLs of the index entries whose text
the word-boundary regex matches, in index order. -/
def search (s : CrawlState) (keyword : String) : List String :=
  (s.index.filter (fun e => reSearchWord keyword e.2)).map (fun e => e.1)

/-- The number of URLs of the finite universe `U` not yet visited: the
termination measure of the recursion (each recursive level that proceeds past
the visited check strictly decreases it). -/
def unvisited (U : Finset String) (s : CrawlState) : Nat :=
  (U.filter (fun x => x ∉ s.visited)).card

/-! ### Concrete environments used as test fixtures

Each environment fixes the behaviour of the external collaborators
(`requests.get` + BeautifulSoup, and `urljoin`) on the handful of URLs a
scenario uses; `urljoin` is given only the resolutions the real
`urllib.parse.urljoin` performs on those inputs (an absolute href is returned
unchanged, a path-relative href is appended to the site root). -/

/-- A site whose root page links to `https://example.com.evil.com`: a
different origin that shares a string prefix with the scope base. -/
def envEvil : CrawlEnv where
  fetch u :=
    if u = "https://example.com" then some ("home", ["https://example.com.evil.com"])
    else if u = "https://example.com.evil.com" then some ("evil page", [])
    else none
  urljoin _ h := some h

/-- The cyclic site A → B → A of the idempotent-visitation property. -/
def envCycle : CrawlEnv where
  fetch u :=
    if u = "https://e.com" then some ("page a", ["/b"])
    else if u = "https://e.com/b" then some ("page b", ["https://e.com"])
    else none
  urljoin b h := if h = "/b" then some (b ++ "/b") else some h

/-- A page containing two identical hrefs to the same target. -/
def envDup : CrawlEnv where
  fetch u :=
    if u = "https://e.com" then some ("page a", ["/b", "/b"])
    else if u = "https://e.com/b" then some ("page b", [])
    else none
  urljoin b h := if h = "/b" then some (b ++ "/b") else some h

/-- A page whose link sequence contains a malformed href (`:bad:`, on which
`urljoin` raises) between two well-formed in-scope links. -/
def env4 : CrawlEnv where
  fetch u :=
    if u = "https://e.com" then some ("page a", ["/x", ":bad:", "/y"])
    else if u = "https://e.com/x" then some ("page x", [])
    else if u = "https://e.com/y" then some ("page y", [])
    else none
  urljoin b h :=
    if h = ":bad:" then none
    else if h = "/x" then some (b ++ "/x")
    else if h = "/y" then some (b ++ "/y")
    else some h

/-- A root page A linking to B (whose fetch fails) and then to C. -/
def env6 : CrawlEnv where
  fetch u :=
    if u = "https://e.com" then some ("page a", ["/b", "/c"])
    else if u = "https://e.com/c" then some ("page c", [])
    else none
  urljoin b h :=
    if h = "/b" then some (b ++ "/b")
    else if h = "/c" then some (b ++ "/c")
    else some h

/-- A URL serving JSON content: BeautifulSoup extracts the raw text and finds
no anchors. -/
def envJson : CrawlEnv where
  fetch u :=
    if u = "https://example.com/api" then some ("\x7b\"json\": true\x7d", [])
    else none
  urljoin _ h := some h

/-- An index holding one page of ordinary word text (as in the repository's
`test_search` fixture). -/
def stWords : CrawlState := ⟨[], [("page1", "This has the keyword")], []⟩

/-- An index holding the whole-word example text of the spec. -/
def stCat : CrawlState := ⟨[], [("u", "category theory")], []⟩

/-- An index holding the case-insensitivity example text of the spec. -/
def stCaps : CrawlState := ⟨[], [("u", "KEYword in caps")], []⟩

/-- An index whose text contains the keyword `+` as a free-standing token. -/
def stPlus : CrawlState := ⟨[], [("u", "a + b")], []⟩

/-! ### Step equations for `crawl` and `crawlLinks` -/

theorem crawl_mem_visited {env : CrawlEnv} {fuel : Nat} {url : String}
    {b : Option String} {s : CrawlState} (h : url ∈ s.visited) :
    crawl env (Nat.succ fuel) url b s = s := by
  simp [crawl, h]

theorem crawl_fetch_none {env : CrawlEnv} {fuel : Nat} {url : String}
    {b : Option String} {s : CrawlState} (h1 : url ∉ s.visited)
    (h2 : env.fetch url = none) :
    crawl env (Nat.succ fuel) url b s =
      ⟨url :: s.visited, s.index, url :: s.fetchLog⟩ := by
  simp [crawl, h1, h2]

theorem crawl_fetch_some {env : CrawlEnv} {fuel : Nat} {url text : String}
    {hrefs : List String} {b : Option String} {s : CrawlState}
    (h1 : url ∉ s.visited) (h2 : env.fetch url = some (text, hrefs)) :
    crawl env (Nat.succ fuel) url b s =
      crawlLinks env (fun u t => crawl env fuel u (some (pyOr b url)) t)
        (pyOr b url) hrefs
        ⟨url :: s.visited, dictSet s.index url text, url :: s.fetchLog⟩ := by
  simp [crawl, h1, h2]

theorem crawlLinks_cons_skip {env : CrawlEnv} {recur : String → CrawlState → CrawlState}
    {base : String} {rest : List String} {s : CrawlState} :
    crawlLinks env recur base ("" :: rest) s = crawlLinks env recur base rest s := by
  simp [crawlLinks]

theorem crawlLinks_cons_fail {env : CrawlEnv} {recur : String → CrawlState → CrawlState}
    {base href : String} {rest : List String} {s : CrawlState}
    (h1 : href ≠ "") (h2 : env.urljoin base href = none) :
    crawlLinks env recur base (href :: rest) s = s := by
  simp [crawlLinks, h1, h2]

theorem crawlLinks_cons_some {env : CrawlEnv} {recur : String → CrawlState → CrawlState}
    {base href abs : String} {rest : List String} {s : CrawlState}
    (h1 : href ≠ "") (h2 : env.urljoin base href = some abs) :
    crawlLinks env recur base (href :: rest) s =
      crawlLinks env recur base rest
        (if pyStartsWith abs base then recur abs s else s) := by
  simp [crawlLinks, h1, h2]

/-! ### Membership lemmas for the dict-assignment model -/

theorem mem_dictSet {k v : String} {e : String × String} :
    ∀ {idx : List (String × String)}, e ∈ dictSet idx k v → e = (k, v) ∨ e ∈ idx := by
  intro idx
  induction idx with
  | nil => intro h; simpa [dictSet] using h
  | cons a rest ih =>
    intro h
    by_cases ha : a.1 = k
    · rw [show dictSet (a :: rest) k v = (k, v) :: rest by simp [dictSet, ha]] at h
      rcases List.mem_cons.1 h with h | h
      · exact Or.inl h
      · exact Or.inr (List.mem_cons_of_mem _ h)
    · rw [show dictSet (a :: rest) k v = a :: dictSet rest k v by
        simp [dictSet, ha]] at h
      rcases List.mem_cons.1 h with h | h
      · exact Or.inr (h ▸ List.mem_cons_self _ _)
      · rcases ih h with h | h
        · exact Or.inl h
        · exact Or.inr (List.mem_cons_of_mem _ h)

theorem mem_dictSet_self (idx : List (String × String)) (k v : String) :
    (k, v) ∈ dictSet idx k v := by
  induction idx with
  | nil => simp [dictSet]
  | cons a rest ih =>
    by_cases ha : a.1 = k
    · simp [dictSet, ha]
    · simp only [dictSet, if_neg ha]
      exact List.mem_cons_of_mem _ ih

theorem mem_dictSet_of_ne {k v : String} {e : String × String} (hne : e.1 ≠ k) :
    ∀ {idx : List (String × String)}, e ∈ idx → e ∈ dictSet idx k v := by
  intro idx
  induction idx with
  | nil => intro h; cases h
  | cons a rest ih =>
    intro h
    by_cases ha : a.1 = k
    · simp only [dictSet, if_pos ha]
      rcases List.mem_cons.1 h with h | h
      · exact absurd (h ▸ ha) hne
      · exact List.mem_cons_of_mem _ h
    · simp only [dictSet, if_neg ha]
      rcases List.mem_cons.1 h with h | h
      · exact h ▸ List.mem_cons_self _ _
      · exact List.mem_cons_of_mem _ (ih h)

/-! ### A generic preservation principle for the traversal

Any reflexive transitive relation on states that is established by the two
primitive state updates of `crawl` (marking a URL visited on fetch failure,
and marking it visited plus assigning its index entry on success) holds
between any state and the result of crawling from it. -/

theorem crawlLinks_rel {R : CrawlState → CrawlState → Prop}
    (hrefl : ∀ s, R s s) (htrans : ∀ a b c, R a b → R b c → R a c)
    {env : CrawlEnv} {recur : String → CrawlState → CrawlState}
    (hrec : ∀ u t, R t (recur u t)) (base : String) :
    ∀ (links : List String) (s : CrawlState), R s (crawlLinks env recur base links s) := by
  intro links
  induction links with
  | nil => intro s; exact hrefl s
  | cons href rest ih =>
    intro s
    by_cases h : href = ""
    · rw [h, crawlLinks_cons_skip]; exact ih s
    · cases hj : env.urljoin base href with
      | none => rw [crawlLinks_cons_fail h hj]; exact hrefl s
      | some abs =>
        rw [crawlLinks_cons_some h hj]
        by_cases hs : pyStartsWith abs base
        · simp only [if_pos hs]
          exact htrans _ _ _ (hrec abs s) (ih _)
        · simp only [if_neg hs]
          exact ih s

theorem crawl_rel {R : CrawlState → CrawlState → Prop}
    (hrefl : ∀ s, R s s) (htrans : ∀ a b c, R a b → R b c → R a c)
    {env : CrawlEnv}
    (hfail : ∀ url s, url ∉ s.visited →
      R s ⟨url :: s.visited, s.index, url :: s.fetchLog⟩)
    (hsucc : ∀ url text s, url ∉ s.visited →
      R s ⟨url :: s.visited, dictSet s.index url text, url :: s.fetchLog⟩) :
    ∀ (fuel : Nat) (url : String) (b : Option String) (s : CrawlState),
      R s (crawl env fuel url b s) := by
  intro fuel
  induction fuel with
  | zero => intro url b s; exact hrefl s
  | succ fuel ih =>
    intro url b s
    by_cases hv : url ∈ s.visited
    · rw [crawl_mem_visited hv]; exact hrefl s
    · cases hf : env.fetch url with
      | none => rw [crawl_fetch_none hv hf]; exact hfail url s hv
      | some page =>
        rw [crawl_fetch_some hv hf]
        exact htrans _ _ _ (hsucc url page.1 s hv)
          (crawlLinks_rel hrefl htrans (fun u t => ih u (some (pyOr b url)) t) _ _ _)

/-- Preservation of a state predicate by the two primitive updates extends to
the whole traversal. -/
theorem crawl_pres {env : CrawlEnv} (P : CrawlState → Prop)
    (hfail : ∀ url s, url ∉ s.visited → P s →
      P ⟨url :: s.visited, s.index, url :: s.fetchLog⟩)
    (hsucc : ∀ url text s, url ∉ s.visited → P s →
      P ⟨url :: s.visited, dictSet s.index url text, url :: s.fetchLog⟩) :
    ∀ (fuel : Nat) (url : String) (b : Option String) (s : CrawlState),
      P s → P (crawl env fuel url b s) :=
  crawl_rel (R := fun a b => P a → P b) (fun _ p => p)
    (fun _ _ _ f g p => g (f p)) (fun u s h => hfail u s h)
    (fun u t s h => hsucc u t s h)

/-- The visited list only grows during a crawl. -/
theorem crawl_visited_sub (env : CrawlEnv) (fuel : Nat) (url : String)
    (b : Option String) (s : CrawlState) :
    s.visited ⊆ (crawl env fuel url b s).visited :=
  crawl_rel (R := fun a b => a.visited ⊆ b.visited)
    (fun _ => List.Subset.refl _) (fun _ _ _ h1 h2 => List.Subset.trans h1 h2)
    (fun _ _ _ => List.subset_cons_self _ _) (fun _ _ _ _ => List.subset_cons_self _ _)
    fuel url b s

/-- An index entry whose key is already visited survives the rest of the
crawl (the key cannot be re-assigned, because the crawler only assigns the
index at URLs it has just added to the visited list). -/
theorem crawl_keeps_entry (env : CrawlEnv) (fuel : Nat) (url : String)
    (b : Option String) (s : CrawlState) {u v : String}
    (hv : u ∈ s.visited) (hi : (u, v) ∈ s.index) :
    u ∈ (crawl env fuel url b s).visited ∧ (u, v) ∈ (crawl env fuel url b s).index := by
  refine crawl_rel
    (R := fun a b => ∀ u v, u ∈ a.visited → (u, v) ∈ a.index →
      u ∈ b.visited ∧ (u, v) ∈ b.index) ?_ ?_ ?_ ?_ fuel url b s u v hv hi
  · exact fun _ _ _ h1 h2 => ⟨h1, h2⟩
  · intro a b c hab hbc u v h1 h2
    obtain ⟨h1, h2⟩ := hab u v h1 h2
    exact hbc u v h1 h2
  · intro w s hw u v h1 h2
    exact ⟨List.mem_cons_of_mem _ h1, h2⟩
  · intro w t s hw u v h1 h2
    refine ⟨List.mem_cons_of_mem _ h1, mem_dictSet_of_ne ?_ h2⟩
    intro h
    exact hw (h ▸ h1)

/-- Same preservation statement for the link loop, given that the recursive
step preserves entries with visited keys. -/
theorem crawlLinks_keeps_entry {env : CrawlEnv}
    {recur : String → CrawlState → CrawlState}
    (hrec : ∀ w t u v, u ∈ t.visited → (u, v) ∈ t.index →
      u ∈ (recur w t).visited ∧ (u, v) ∈ (recur w t).index)
    (base : String) (links : List String) (s : CrawlState) {u v : String}
    (hv : u ∈ s.visited) (hi : (u, v) ∈ s.index) :
    u ∈ (crawlLinks env recur base links s).visited ∧
      (u, v) ∈ (crawlLinks env recur base links s).index := by
  refine crawlLinks_rel
    (R := fun a b => ∀ u v, u ∈ a.visited → (u, v) ∈ a.index →
      u ∈ b.visited ∧ (u, v) ∈ b.index) ?_ ?_ ?_ base links s u v hv hi
  · exact fun _ _ _ h1 h2 => ⟨h1, h2⟩
  · intro a b c hab hbc u v h1 h2
    obtain ⟨h1, h2⟩ := hab u v h1 h2
    exact hbc u v h1 h2
  · exact hrec

/-- The crawler's structural invariant: no URL is ever put twice in the
visited list, no URL is fetched twice, and every fetched URL was marked
visited (in the source, `self.visited.add(url)` precedes `requests.get(url)`
on every path). -/
theorem crawl_nodup_inv (env : CrawlEnv) (fuel : Nat) (url : String)
    (b : Option String) (s : CrawlState)
    (h : s.visited.Nodup ∧ s.fetchLog.Nodup ∧ ∀ u ∈ s.fetchLog, u ∈ s.visited) :
    (crawl env fuel url b s).visited.Nodup ∧
      (crawl env fuel url b s).fetchLog.Nodup ∧
      ∀ u ∈ (crawl env fuel url b s).fetchLog, u ∈ (crawl env fuel url b s).visited := by
  refine crawl_pres
    (P := fun t => t.visited.Nodup ∧ t.fetchLog.Nodup ∧ ∀ u ∈ t.fetchLog, u ∈ t.visited)
    ?_ ?_ fuel url b s h
  · intro w t hw ⟨h1, h2, h3⟩
    refine ⟨List.nodup_cons.2 ⟨hw, h1⟩,
      List.nodup_cons.2 ⟨fun hm => hw (h3 w hm), h2⟩, ?_⟩
    intro u hu
    rcases List.mem_cons.1 hu with hu | hu
    · exact hu ▸ List.mem_cons_self _ _
    · exact List.mem_cons_of_mem _ (h3 u hu)
  · intro w txt t hw ⟨h1, h2, h3⟩
    refine ⟨List.nodup_cons.2 ⟨hw, h1⟩,
      List.nodup_cons.2 ⟨fun hm => hw (h3 w hm), h2⟩, ?_⟩
    intro u hu
    rcases List.mem_cons.1 hu with hu | hu
    · exact hu ▸ List.mem_cons_self _ _
    · exact List.mem_cons_of_mem _ (h3 u hu)

/-! ### Claims -/

/-- Claim C1 (code bug): the source scopes links with the raw string-prefix
test `href.startswith(base_url or url)` (src/main.py line 27), so the link
`https://example.com.evil.com` — a different origin that merely shares a
string prefix with the scope base `https://example.com` — is crawled: it
ends up both in the visited set and in the text index, which the claim
forbids. -/
theorem c1_evil_origin_is_crawled :
    "https://example.com.evil.com" ∈
        (crawl envEvil 3 "https://example.com" none initState).visited ∧
      ("https://example.com.evil.com", "evil page") ∈
        (crawl envEvil 3 "https://example.com" none initState).index := by
  decide

/-- Claim C2: a crawl invocation started on a fresh crawler fetches every URL
at most once and enters it in the visited list at most once; moreover on the
concrete cyclic site A → B → A the crawl terminates with A and B visited
exactly once each, and a page with two identical hrefs gets its target
fetched and visited exactly once. -/
theorem c2_fetch_at_most_once :
    (∀ (env : CrawlEnv) (fuel : Nat) (url u : String) (b : Option String),
        (crawl env fuel url b initState).fetchLog.count u ≤ 1 ∧
          (crawl env fuel url b initState).visited.count u ≤ 1) ∧
      ((crawl envCycle 5 "https://e.com" none initState).visited.count
          "https://e.com" = 1 ∧
        (crawl envCycle 5 "https://e.com" none initState).visited.count
          "https://e.com/b" = 1) ∧
      (crawl envDup 5 "https://e.com" none initState).fetchLog.count
          "https://e.com/b" = 1 ∧
        (crawl envDup 5 "https://e.com" none initState).visited.count
          "https://e.com/b" = 1 := by
  refine ⟨?_, by decide, by decide, by decide⟩
  intro env fuel url u b
  have h := crawl_nodup_inv env fuel url b initState
    ⟨List.nodup_nil, List.nodup_nil, by simp [initState]⟩
  exact ⟨List.nodup_iff_count_le_one.1 h.2.1 u,
    List.nodup_iff_count_le_one.1 h.1 u⟩

/-- Claim C9: searching a freshly constructed (empty) index returns the empty
list for every keyword, and (being a total function of the model) never
raises. -/
theorem c9_empty_index_search (keyword : String) : search initState keyword = [] :=
  rfl

/-- Claim C8: whenever a URL's fetch step runs and succeeds, the crawler
unconditionally stores that URL's extracted text in the index (for every
possible text, including the empty string — the model does not inspect the
content at all), and the entry survives to the end of the crawl; in
particular fetching a URL serving the JSON body `\x7b"json": true\x7d`
produces an index entry for it. -/
theorem c8_success_always_indexed :
    (∀ (env : CrawlEnv) (fuel : Nat) (url text : String) (hrefs : List String)
        (b : Option String) (s : CrawlState), url ∉ s.visited →
        env.fetch url = some (text, hrefs) →
        (url, text) ∈ (crawl env (Nat.succ fuel) url b s).index) ∧
      ("https://example.com/api", "\x7b\"json\": true\x7d") ∈
        (crawl envJson 2 "https://example.com/api" none initState).index := by
  refine ⟨?_, by decide⟩
  intro env fuel url text hrefs b s h1 h2
  rw [crawl_fetch_some h1 h2]
  exact (crawlLinks_keeps_entry
    (fun w t u v hv hi => crawl_keeps_entry env fuel w (some (pyOr b url)) t hv hi)
    (pyOr b url) hrefs _ (List.mem_cons_self _ _)
    (mem_dictSet_self s.index url text)).2

/-- Witness for C8: the first conjunct applied at the JSON fixture. -/
theorem c8_success_always_indexed_witness :
    ("https://example.com/api" ∉ initState.visited ∧
        envJson.fetch "https://example.com/api" = some ("\x7b\"json\": true\x7d", [])) ∧
      ("https://example.com/api", "\x7b\"json\": true\x7d") ∈
        (crawl envJson 1 "https://example.com/api" none initState).index :=
  ⟨⟨by decide, by rfl⟩,
    c8_success_always_indexed.1 envJson 0 "https://example.com/api"
      "\x7b\"json\": true\x7d" [] none initState (by decide) (by rfl)⟩

/-- Claim C10: if every index key is visited (as in any reachable crawler
state, the fresh one included), then after any crawl every index key is still
visited; and a URL whose fetch fails is added to the visited list while the
index is left completely untouched. -/
theorem c10_index_keys_subset_visited :
    (∀ (env : CrawlEnv) (fuel : Nat) (url : String) (b : Option String)
        (s : CrawlState), (∀ e ∈ s.index, e.1 ∈ s.visited) →
        ∀ e ∈ (crawl env fuel url b s).index, e.1 ∈ (crawl env fuel url b s).visited) ∧
      ∀ (env : CrawlEnv) (fuel : Nat) (url : String) (b : Option String)
        (s : CrawlState), url ∉ s.visited → env.fetch url = none →
        crawl env (Nat.succ fuel) url b s =
          ⟨url :: s.visited, s.index, url :: s.fetchLog⟩ := by
  constructor
  · intro env fuel url b s h
    refine crawl_pres (P := fun t => ∀ e ∈ t.index, e.1 ∈ t.visited) ?_ ?_ fuel url b s h
    · intro w t hw hp e he
      exact List.mem_cons_of_mem _ (hp e he)
    · intro w txt t hw hp e he
      rcases mem_dictSet he with he | he
      · exact he ▸ List.mem_cons_self _ _
      · exact List.mem_cons_of_mem _ (hp e he)
  · intro env fuel url b s h1 h2
    exact crawl_fetch_none h1 h2

/-- Witness for C10: both conjuncts applied to the fixture where the root
links to a URL whose fetch fails. -/
theorem c10_index_keys_subset_visited_witness :
    ((∀ e ∈ initState.index, e.1 ∈ initState.visited) ∧
        (∀ e ∈ (crawl env6 3 "https://e.com" none initState).index,
          e.1 ∈ (crawl env6 3 "https://e.com" none initState).visited)) ∧
      ("https://e.com/b" ∉ initState.visited ∧ env6.fetch "https://e.com/b" = none) ∧
        crawl env6 1 "https://e.com/b" none initState =
          ⟨["https://e.com/b"], [], ["https://e.com/b"]⟩ :=
  ⟨⟨by decide,
      c10_index_keys_subset_visited.1 env6 3 "https://e.com" none initState (by decide)⟩,
    ⟨by decide, by rfl⟩,
    c10_index_keys_subset_visited.2 env6 0 "https://e.com/b" none initState
      (by decide) (by rfl)⟩

/-- Claim C6: a fetch failure is local.  First, crawling a URL whose fetch
fails only marks it visited — the index is untouched and the call returns
normally (the exception is caught inside that very call, so it cannot unwind
into the caller).  Second, a page whose own fetch succeeded keeps its index
entry to the end of the crawl.  Third, in the link loop of a page, a link
whose target's fetch fails contributes only a visited mark, after which the
remaining sibling links are processed exactly as they would have been. -/
theorem c6_fetch_failure_is_local :
    (∀ (env : CrawlEnv) (fuel : Nat) (b : Option String) (s : CrawlState)
        (u : String), u ∉ s.visited → env.fetch u = none →
        crawl env (Nat.succ fuel) u b s = ⟨u :: s.visited, s.index, u :: s.fetchLog⟩) ∧
      (∀ (env : CrawlEnv) (fuel : Nat) (url text : String) (hrefs : List String)
        (b : Option String) (s : CrawlState), url ∉ s.visited →
        env.fetch url = some (text, hrefs) →
        (url, text) ∈ (crawl env (Nat.succ fuel) url b s).index) ∧
      ∀ (env : CrawlEnv) (fuel : Nat) (base href babs : String)
        (rest : List String) (s : CrawlState), href ≠ "" →
        env.urljoin base href = some babs → pyStartsWith babs base = true →
        babs ∉ s.visited → env.fetch babs = none →
        crawlLinks env (fun u t => crawl env (Nat.succ fuel) u (some base) t)
            base (href :: rest) s =
          crawlLinks env (fun u t => crawl env (Nat.succ fuel) u (some base) t)
            base rest ⟨babs :: s.visited, s.index, babs :: s.fetchLog⟩ := by
  refine ⟨?_, ?_, ?_⟩
  · intro env fuel b s u h1 h2
    exact crawl_fetch_none h1 h2
  · intro env fuel url text hrefs b s h1 h2
    rw [crawl_fetch_some h1 h2]
    exact (crawlLinks_keeps_entry
      (fun w t u v hv hi => crawl_keeps_entry env fuel w (some (pyOr b url)) t hv hi)
      (pyOr b url) hrefs _ (List.mem_cons_self _ _)
      (mem_dictSet_self s.index url text)).2
  · intro env fuel base href babs rest s h1 h2 h3 h4 h5
    rw [crawlLinks_cons_some h1 h2, if_pos h3, crawl_fetch_none h4 h5]

/-- Witness for C6: all three conjuncts applied to the fixture site where
`https://e.com` links to `/b` (fetch fails) and then `/c`. -/
theorem c6_fetch_failure_is_local_witness :
    (("https://e.com/b" ∉ initState.visited ∧ env6.fetch "https://e.com/b" = none) ∧
        crawl env6 2 "https://e.com/b" none initState =
          ⟨["https://e.com/b"], [], ["https://e.com/b"]⟩) ∧
      (env6.fetch "https://e.com" = some ("page a", ["/b", "/c"]) ∧
        ("https://e.com", "page a") ∈
          (crawl env6 3 "https://e.com" none initState).index) ∧
      crawlLinks env6 (fun u t => crawl env6 2 u (some "https://e.com") t)
          "https://e.com" ["/b", "/c"]
          ⟨["https://e.com"], [("https://e.com", "page a")], ["https://e.com"]⟩ =
        crawlLinks env6 (fun u t => crawl env6 2 u (some "https://e.com") t)
          "https://e.com" ["/c"]
          ⟨["https://e.com/b", "https://e.com"], [("https://e.com", "page a")],
            ["https://e.com/b", "https://e.com"]⟩ :=
  ⟨⟨⟨by decide, by rfl⟩,
      c6_fetch_failure_is_local.1 env6 1 none initState "https://e.com/b"
        (by decide) (by rfl)⟩,
    ⟨by rfl,
      c6_fetch_failure_is_local.2.1 env6 2 "https://e.com" "page a" ["/b", "/c"]
        none initState (by decide) (by rfl)⟩,
    c6_fetch_failure_is_local.2.2 env6 1 "https://e.com" "/b" "https://e.com/b"
      ["/c"] ⟨["https://e.com"], [("https://e.com", "page a")], ["https://e.com"]⟩
      (by decide) (by rfl) (by decide) (by decide) (by rfl)⟩

/-- Claim C4 counterexample: in the source the `try` block encloses the whole
link loop, so when `urljoin` raises on the malformed href `:bad:` the
per-page `except` catches it and the loop is abandoned: the well-formed
in-scope link `/y` that follows the malformed one is never resolved or
crawled, contradicting the claim that the remaining links are still
processed.  (The link `/x` before the malformed one was processed.) -/
theorem c4_counterexample :
    "https://e.com/x" ∈ (crawl env4 5 "https://e.com" none initState).visited ∧
      "https://e.com/y" ∉ (crawl env4 5 "https://e.com" none initState).visited ∧
      ∀ t, ("https://e.com/y", t) ∉ (crawl env4 5 "https://e.com" none initState).index := by
  refine ⟨by decide, by decide, ?_⟩
  intro t ht
  have : ("https://e.com/y", t) ∈
      [("https://e.com", "page a"), ("https://e.com/x", "page x")] := by
    have he : (crawl env4 5 "https://e.com" none initState).index =
        [("https://e.com", "page a"), ("https://e.com/x", "page x")] := by decide
    exact he ▸ ht
  simp at this

/-- Claim C4 as amended: an error while resolving one individual href does
not abort the overall crawl or undo the links already processed — the page's
links before the malformed one are processed exactly as if the rest of the
page were absent — but (unlike the original claim) the links after the
malformed one on the same page are skipped, because the per-page `except`
ends the loop. -/
theorem c4_amended (env : CrawlEnv) (recur : String → CrawlState → CrawlState)
    (base : String) (l : List String) (bad : String) (rest : List String)
    (s : CrawlState) (hl : ∀ x ∈ l, x = "" ∨ (env.urljoin base x).isSome)
    (hb1 : bad ≠ "") (hb2 : env.urljoin base bad = none) :
    crawlLinks env recur base (l ++ bad :: rest) s = crawlLinks env recur base l s := by
  induction l generalizing s with
  | nil =>
    rw [List.nil_append, crawlLinks_cons_fail hb1 hb2]
    rfl
  | cons x l' ih =>
    by_cases hx : x = ""
    · rw [hx, List.cons_append, crawlLinks_cons_skip, crawlLinks_cons_skip]
      exact ih _ (fun y hy => hl y (List.mem_cons_of_mem _ hy))
    · rcases hl x (List.mem_cons_self _ _) with h | h
      · exact absurd h hx
      · obtain ⟨abs, habs⟩ := Option.isSome_iff_exists.1 h
        rw [List.cons_append, crawlLinks_cons_some hx habs, crawlLinks_cons_some hx habs]
        exact ih _ (fun y hy => hl y (List.mem_cons_of_mem _ hy))

/-- Witness for C4's amended theorem, at the malformed-href fixture. -/
theorem c4_amended_witness :
    ((∀ x ∈ ["/x"], x = "" ∨ (env4.urljoin "https://e.com" x).isSome) ∧
        (":bad:" : String) ≠ "" ∧ env4.urljoin "https://e.com" ":bad:" = none) ∧
      crawlLinks env4 (fun u t => crawl env4 3 u (some "https://e.com") t)
          "https://e.com" (["/x"] ++ ":bad:" :: ["/y"]) initState =
        crawlLinks env4 (fun u t => crawl env4 3 u (some "https://e.com") t)
          "https://e.com" ["/x"] initState :=
  ⟨⟨by decide, by decide, by rfl⟩,
    c4_amended env4 (fun u t => crawl env4 3 u (some "https://e.com") t)
      "https://e.com" ["/x"] ":bad:" ["/y"] initState (by decide) (by decide) (by rfl)⟩

/-! ### The empty keyword -/

theorem wordAt_true_exists {cs : List Char} {q : Nat} (h : wordAt cs q = true) :
    ∃ c ∈ cs, isWordChar c = true := by
  unfold wordAt at h
  rw [List.getD_eq_getElem?_getD] at h
  cases hq : cs[q]? with
  | none => rw [hq] at h; exact absurd h (by decide)
  | some c =>
    rw [hq] at h
    exact ⟨c, List.getElem?_mem hq, h⟩

theorem boundaryAt_word {cs : List Char} {p : Nat} (h : boundaryAt cs p = true) :
    wordAt cs (p - 1) = true ∨ wordAt cs p = true := by
  unfold boundaryAt at h
  cases h1 : wordAt cs p with
  | true => exact Or.inr rfl
  | false =>
    cases h2 : wordAt cs (p - 1) with
    | true => exact Or.inl rfl
    | false => rw [h1, h2] at h; simp at h

theorem exists_boundary_of_word {cs : List Char} (h : ∃ c ∈ cs, isWordChar c = true) :
    ∃ p ∈ List.range (cs.length + 1), boundaryAt cs p = true := by
  have hq : cs.findIdx isWordChar < cs.length := List.findIdx_lt_length_of_exists h
  refine ⟨cs.findIdx isWordChar, List.mem_range.2 (Nat.lt_succ_of_lt hq), ?_⟩
  have hqw : wordAt cs (cs.findIdx isWordChar) = true := by
    unfold wordAt
    rw [List.getD_eq_getElem?_getD, List.getElem?_eq_getElem hq]
    simpa using List.findIdx_getElem (w := hq)
  unfold boundaryAt
  rw [hqw]
  cases hq0 : cs.findIdx isWordChar with
  | zero => simp
  | succ q' =>
    have hlt : q' < cs.findIdx isWordChar := by omega
    have hq' : q' < cs.length := by omega
    have hfalse : isWordChar (cs.get ⟨q', hq'⟩) = false := List.not_of_lt_findIdx hlt
    have hw : wordAt cs (q' + 1 - 1) = false := by
      unfold wordAt
      rw [List.getD_eq_getElem?_getD, show q' + 1 - 1 = q' from rfl,
        List.getElem?_eq_getElem hq']
      simpa using hfalse
    rw [hw]
    simp

theorem reSearchWord_empty (t : String) : reSearchWord "" t = t.data.any isWordChar := by
  rw [Bool.eq_iff_iff, List.any_eq_true]
  constructor
  · intro h
    rw [reSearchWord, List.any_eq_true] at h
    obtain ⟨p, _, hm⟩ := h
    have hb : boundaryAt t.data p = true := by
      have hm' : matchesAt [] t.data p = true := hm
      unfold matchesAt at hm'
      simp only [matchChunk, Bool.true_and, List.length_nil, Nat.add_zero,
        Bool.and_self] at hm'
      exact hm'
    rcases boundaryAt_word hb with h | h
    · obtain ⟨c, hc1, hc2⟩ := wordAt_true_exists h
      exact ⟨c, hc1, hc2⟩
    · obtain ⟨c, hc1, hc2⟩ := wordAt_true_exists h
      exact ⟨c, hc1, hc2⟩
  · intro h
    obtain ⟨p, hp, hb⟩ := exists_boundary_of_word (by

      obtain ⟨c, hc1, hc2⟩ := h
      exact ⟨c, hc1, hc2⟩)
    rw [reSearchWord, List.any_eq_true]
    refine ⟨p, hp, ?_⟩
    show matchesAt [] t.data p = true
    unfold matchesAt
    simp only [matchChunk, Bool.true_and, List.length_nil, Nat.add_zero,
      Bool.and_self]
    exact hb

/-- Claim C5 counterexample: searching the empty keyword on an index holding
a page of ordinary word text returns that page (the pattern `\b\b` matches at
the first word character), contradicting the requirement to return nothing or
fail. -/
theorem c5_counterexample : search stWords "" = ["page1"] := by decide

/-- Claim C5 as amended: the source leaves the empty keyword to the regex,
and `\b + '' + \b` matches exactly the texts containing at least one word
character; so instead of matching nothing (or failing), searching the empty
keyword returns every indexed URL whose text contains a word character — in
particular any page of ordinary word text is returned. -/
theorem c5_amended_empty_keyword (st : CrawlState) :
    search st "" =
      (st.index.filter (fun e => e.2.data.any isWordChar)).map (fun e => e.1) := by
  unfold search
  congr 1
  apply List.filter_congr
  intro e _
  exact reSearchWord_empty e.2

/-! ### Word boundaries versus the spec's adjacency reading -/

theorem char_toNat_ofNat {n : Nat} (h : n < 55296) : (Char.ofNat n).toNat = n := by
  have hv : n.isValidChar := Or.inl h
  rw [Char.ofNat, dif_pos hv]
  rfl

/-- Case folding does not change whether a character is a word character. -/
theorem wordChar_lowerChar (c : Char) : isWordChar (lowerChar c) = isWordChar c := by
  unfold lowerChar
  by_cases h : (65 ≤ c.toNat && c.toNat ≤ 90) = true
  · rw [if_pos h]
    rw [Bool.and_eq_true, decide_eq_true_eq, decide_eq_true_eq] at h
    have ht : (Char.ofNat (c.toNat + 32)).toNat = c.toNat + 32 :=
      char_toNat_ofNat (by omega)
    unfold isWordChar
    rw [ht, Bool.eq_iff_iff]
    simp only [Bool.or_eq_true, Bool.and_eq_true, decide_eq_true_eq, beq_iff_eq]
    omega
  · rw [if_neg h]

theorem getD_drop (p : Nat) (cs : List Char) (i : Nat) :
    (cs.drop p).getD i ' ' = cs.getD (p + i) ' ' := by
  induction p generalizing cs with
  | zero => simp
  | succ p' ih =>
    cases cs with
    | nil => simp
    | cons c cs' =>
      rw [List.drop_succ_cons, ih cs', show p' + 1 + i = (p' + i) + 1 by omega,
        List.getD_cons_succ]

theorem matchChunk_getD {kw cs : List Char} (h : matchChunk kw cs = true) :
    ∀ i < kw.length, lowerChar (cs.getD i ' ') = lowerChar (kw.getD i ' ') := by
  induction kw generalizing cs with
  | nil => intro i hi; exact absurd hi (by simp)
  | cons k ks ih =>
    cases cs with
    | nil => exact absurd h (by simp [matchChunk])
    | cons c cs' =>
      simp only [matchChunk, Bool.and_eq_true, beq_iff_eq] at h
      intro i hi
      cases i with
      | zero => simpa using h.1
      | succ i' =>
        rw [List.getD_cons_succ, List.getD_cons_succ]
        exact ih h.2 i' (by simpa using hi)

/-- For a keyword that begins and ends with a word character, the regex
word-boundary condition at a match position coincides with the spec's
"not adjacent to a word character on either side". -/
theorem matchesAt_eq_spec {kw : List Char} (cs : List Char) (hne : kw ≠ [])
    (h1 : isWordChar (kw.getD 0 ' ') = true)
    (h2 : isWordChar (kw.getD (kw.length - 1) ' ') = true) (p : Nat) :
    matchesAt kw cs p =
      (matchChunk kw (cs.drop p) &&
        !(decide (p ≠ 0) && wordAt cs (p - 1)) && !wordAt cs (p + kw.length)) := by
  cases hm : matchChunk kw (cs.drop p) with
  | false => simp [matchesAt, hm]
  | true =>
    have hlen : 1 ≤ kw.length := by
      cases kw with
      | nil => exact absurd rfl hne
      | cons k ks => simp
    have w0 : wordAt cs p = true := by
      unfold wordAt
      rw [← wordChar_lowerChar, show p = p + 0 by omega, ← getD_drop,
        matchChunk_getD hm 0 (by omega), wordChar_lowerChar]
      exact h1
    have wlast : wordAt cs (p + kw.length - 1) = true := by
      unfold wordAt
      rw [← wordChar_lowerChar, show p + kw.length - 1 = p + (kw.length - 1) by omega,
        ← getD_drop, matchChunk_getD hm (kw.length - 1) (by omega), wordChar_lowerChar]
      exact h2
    unfold matchesAt boundaryAt
    rw [hm, w0, wlast, show (decide (p + kw.length ≠ 0)) = true by
      simp only [decide_eq_true_eq]; omega]
    cases hx : (decide (p ≠ 0) && wordAt cs (p - 1)) <;>
      cases hy : wordAt cs (p + kw.length) <;> rfl

/-- For such keywords the regex search agrees with the spec's whole-word
predicate on every text. -/
theorem reSearchWord_eq_spec (kw text : String) (hne : kw.data ≠ [])
    (h1 : isWordChar (kw.data.getD 0 ' ') = true)
    (h2 : isWordChar (kw.data.getD (kw.data.length - 1) ' ') = true) :
    reSearchWord kw text = specWholeWordMatch kw text := by
  unfold reSearchWord specWholeWordMatch
  congr 1
  funext p
  exact matchesAt_eq_spec text.data hne h1 h2 p

/-- Membership in a search result, unfolded to the index. -/
theorem mem_search {st : CrawlState} {kw u : String} :
    u ∈ search st kw ↔ ∃ t, (u, t) ∈ st.index ∧ reSearchWord kw t = true := by
  unfold search
  rw [List.mem_map]
  constructor
  · rintro ⟨e, he, rfl⟩
    rw [List.mem_filter] at he
    exact ⟨e.2, by simpa using he.1, he.2⟩
  · rintro ⟨t, ht, hr⟩
    exact ⟨(u, t), List.mem_filter.2 ⟨ht, hr⟩, rfl⟩

/-- Claim C3 counterexample: the claim reads "whole word" as "not adjacent to
a word character on either side", but the source uses the regex `\b`, which
additionally requires a word character *inside* the match at each end.  For
the keyword `+` and the indexed text `a + b` the two disagree: `+` occurs
surrounded by spaces (so the claim requires a match), yet
`re.search(r'\b\+\b', "a + b", re.IGNORECASE)` finds nothing and the URL is
not returned. -/
theorem c3_counterexample :
    specWholeWordMatch "+" "a + b" = true ∧ search stPlus "+" = [] := by
  decide

/-- Claim C3 as amended: for keywords that begin and end with a word
character (which covers every example in the claim), `search` returns a URL
iff the keyword occurs in that URL's indexed text case-insensitively and not
adjacent to a word character on either side — regex metacharacters inside
the keyword are literal, the pattern being escaped.  The spec's examples
hold: `cat` does not hit `category theory`, `category` does, and `keyword`
hits `KEYword in caps`. -/
theorem c3_amended_whole_word (st : CrawlState) (kw u : String)
    (hne : kw.data ≠ []) (h1 : isWordChar (kw.data.getD 0 ' ') = true)
    (h2 : isWordChar (kw.data.getD (kw.data.length - 1) ' ') = true) :
    (u ∈ search st kw ↔ ∃ t, (u, t) ∈ st.index ∧ specWholeWordMatch kw t = true) ∧
      search stCat "cat" = [] ∧ search stCat "category" = ["u"] ∧
      search stCaps "keyword" = ["u"] := by
  refine ⟨?_, by decide, by decide, by decide⟩
  rw [mem_search]
  exact exists_congr fun t => and_congr_right fun _ => by
    rw [reSearchWord_eq_spec kw t hne h1 h2]

/-- Witness for C3's amended theorem, at the keyword `category` over the
spec's example index. -/
theorem c3_amended_whole_word_witness :
    ("category".data ≠ [] ∧ isWordChar ("category".data.getD 0 ' ') = true ∧
        isWordChar ("category".data.getD ("category".data.length - 1) ' ') = true) ∧
      (("u" ∈ search stCat "category") ↔
          ∃ t, ("u", t) ∈ stCat.index ∧ specWholeWordMatch "category" t = true) ∧
        search stCat "cat" = [] ∧ search stCat "category" = ["u"] ∧
        search stCaps "keyword" = ["u"] :=
  ⟨⟨by decide, by decide, by decide⟩,
    c3_amended_whole_word stCat "category" "u" (by decide) (by decide) (by decide)⟩

/-! ### Termination: enough fuel makes the result fuel-independent -/

theorem unvisited_le_of_subset {U : Finset String} {s t : CrawlState}
    (h : s.visited ⊆ t.visited) : unvisited U t ≤ unvisited U s := by
  apply Finset.card_le_card
  intro x hx
  rw [Finset.mem_filter] at hx ⊢
  exact ⟨hx.1, fun hc => hx.2 (h hc)⟩

theorem unvisited_cons_lt {U : Finset String} {s : CrawlState} {u : String}
    (hu : u ∈ U) (hv : u ∉ s.visited) (idx : List (String × String))
    (log : List String) :
    unvisited U ⟨u :: s.visited, idx, log⟩ < unvisited U s := by
  have hsub : (U.filter (fun x => x ∉ (u :: s.visited))).card ≤
      ((U.filter (fun x => x ∉ s.visited)).erase u).card := by
    apply Finset.card_le_card
    intro x hx
    rw [Finset.mem_filter] at hx
    rw [Finset.mem_erase, Finset.mem_filter]
    have hxne : x ≠ u := fun hxu => hx.2 (hxu ▸ List.mem_cons_self _ _)
    exact ⟨hxne, hx.1, fun hc => hx.2 (List.mem_cons_of_mem _ hc)⟩
  have hmem : u ∈ U.filter (fun x => x ∉ s.visited) := Finset.mem_filter.2 ⟨hu, hv⟩
  calc (U.filter (fun x => x ∉ (u :: s.visited))).card
      ≤ ((U.filter (fun x => x ∉ s.visited)).erase u).card := hsub
    _ < (U.filter (fun x => x ∉ s.visited)).card := Finset.card_erase_lt_of_mem hmem

theorem crawl_unvisited_le (env : CrawlEnv) (U : Finset String) (fuel : Nat)
    (u : String) (b : Option String) (s : CrawlState) :
    unvisited U (crawl env fuel u b s) ≤ unvisited U s :=
  unvisited_le_of_subset (crawl_visited_sub env fuel u b s)

theorem crawlLinks_fuel_stable {env : CrawlEnv} {U : Finset String} {B : String}
    {n : Nat}
    (IH : ∀ m, m < n → ∀ (f g : Nat) (u : String) (s : CrawlState),
      u ∈ U → unvisited U s ≤ m → m < f → m < g →
      crawl env f u (some B) s = crawl env g u (some B) s)
    {f' g' : Nat} (hf : n ≤ f') (hg : n ≤ g') :
    ∀ (hrefs : List String) (s : CrawlState),
      (∀ h ∈ hrefs, h ≠ "" → ∀ a, env.urljoin B h = some a →
        pyStartsWith a B = true → a ∈ U) →
      unvisited U s < n →
      crawlLinks env (fun u t => crawl env f' u (some B) t) B hrefs s =
        crawlLinks env (fun u t => crawl env g' u (some B) t) B hrefs s := by
  intro hrefs
  induction hrefs with
  | nil => intro s _ _; rfl
  | cons href rest ihl =>
    intro s hlinks hs
    by_cases hx : href = ""
    · rw [hx, crawlLinks_cons_skip, crawlLinks_cons_skip]
      exact ihl s (fun h hh => hlinks h (List.mem_cons_of_mem _ hh)) hs
    · cases hj : env.urljoin B href with
      | none => rw [crawlLinks_cons_fail hx hj, crawlLinks_cons_fail hx hj]
      | some abs =>
        rw [crawlLinks_cons_some hx hj, crawlLinks_cons_some hx hj]
        by_cases hsw : pyStartsWith abs B
        · simp only [if_pos hsw]
          have habs : abs ∈ U := hlinks href (List.mem_cons_self _ _) hx abs hj hsw
          have heq : crawl env f' abs (some B) s = crawl env g' abs (some B) s :=
            IH (unvisited U s) hs f' g' abs s habs (Nat.le_refl _)
              (Nat.lt_of_lt_of_le hs hf) (Nat.lt_of_lt_of_le hs hg)
          rw [heq]
          exact ihl _ (fun h hh => hlinks h (List.mem_cons_of_mem _ hh))
            (Nat.lt_of_le_of_lt (crawl_unvisited_le env U g' abs (some B) s) hs)
        · simp only [if_neg hsw]
          exact ihl s (fun h hh => hlinks h (List.mem_cons_of_mem _ hh)) hs

theorem crawl_fuel_stable {env : CrawlEnv} {U : Finset String} {B : String}
    (hB : B ≠ "")
    (hClosed : ∀ x ∈ U, ∀ text links, env.fetch x = some (text, links) →
      ∀ h ∈ links, h ≠ "" → ∀ a, env.urljoin B h = some a →
      pyStartsWith a B = true → a ∈ U) :
    ∀ (n f g : Nat) (u : String) (s : CrawlState),
      u ∈ U → unvisited U s ≤ n → n < f → n < g →
      crawl env f u (some B) s = crawl env g u (some B) s := by
  intro n
  induction n using Nat.strong_induction_on with
  | _ n IH =>
    intro f g u s hu hm hf hg
    cases f with
    | zero => omega
    | succ f' =>
      cases g with
      | zero => omega
      | succ g' =>
        by_cases hv : u ∈ s.visited
        · rw [crawl_mem_visited hv, crawl_mem_visited hv]
        · have hmeas : 1 ≤ unvisited U s := by
            have hmem : u ∈ U.filter (fun x => x ∉ s.visited) :=
              Finset.mem_filter.2 ⟨hu, hv⟩
            have := Finset.card_pos.2 ⟨u, hmem⟩
            unfold unvisited
            omega
          cases hfetch : env.fetch u with
          | none => rw [crawl_fetch_none hv hfetch, crawl_fetch_none hv hfetch]
          | some page =>
            obtain ⟨text, hrefs⟩ := page
            rw [crawl_fetch_some hv hfetch, crawl_fetch_some hv hfetch]
            have hpy : pyOr (some B) u = B := by simp [pyOr, hB]
            rw [hpy]
            have hs2 : unvisited U
                ⟨u :: s.visited, dictSet s.index u text, u :: s.fetchLog⟩ < n := by
              have := unvisited_cons_lt hu hv (dictSet s.index u text) (u :: s.fetchLog)
              omega
            exact crawlLinks_fuel_stable IH (by omega) (by omega) hrefs _
              (fun h hh hne a hj hsw => hClosed u hu text hrefs hfetch h hh hne a hj hsw)
              hs2

/-- Claim C7: for any link graph whose reachable URLs are finite — that is,
some finite set `U` contains the start URL and is closed under following the
in-scope resolved links of the pages of its own members (at the effective,
nonempty scope base `base_url or url` the crawl uses) — the crawl terminates:
any two fuel bounds larger than the number of not-yet-visited URLs of `U`
give the same final state, because every URL is marked visited before its
children are recursed into.  Moreover no path fetches a URL without marking
it visited first: whenever the fetch log's URLs are all visited at the start,
they all are at the end, every fetch being logged at the moment
`requests.get` runs. -/
theorem c7_crawl_terminates (env : CrawlEnv) (U : Finset String)
    (u : String) (b : Option String) (s : CrawlState)
    (hu : u ∈ U) (hB : pyOr b u ≠ "")
    (hClosed : ∀ x ∈ U, ∀ text links, env.fetch x = some (text, links) →
      ∀ h ∈ links, h ≠ "" → ∀ a, env.urljoin (pyOr b u) h = some a →
      pyStartsWith a (pyOr b u) = true → a ∈ U)
    (f g : Nat) (hf : unvisited U s < f) (hg : unvisited U s < g) :
    crawl env f u b s = crawl env g u b s ∧
      ((∀ x ∈ s.fetchLog, x ∈ s.visited) →
        ∀ x ∈ (crawl env f u b s).fetchLog, x ∈ (crawl env f u b s).visited) := by
  constructor
  · cases f with
    | zero => omega
    | succ f' =>
      cases g with
      | zero => omega
      | succ g' =>
        by_cases hv : u ∈ s.visited
        · rw [crawl_mem_visited hv, crawl_mem_visited hv]
        · have hmeas : 1 ≤ unvisited U s := by
            have hmem : u ∈ U.filter (fun x => x ∉ s.visited) :=
              Finset.mem_filter.2 ⟨hu, hv⟩
            have := Finset.card_pos.2 ⟨u, hmem⟩
            unfold unvisited
            omega
          cases hfetch : env.fetch u with
          | none => rw [crawl_fetch_none hv hfetch, crawl_fetch_none hv hfetch]
          | some page =>
            obtain ⟨text, hrefs⟩ := page
            rw [crawl_fetch_some hv hfetch, crawl_fetch_some hv hfetch]
            have hs2 : unvisited U
                ⟨u :: s.visited, dictSet s.index u text, u :: s.fetchLog⟩ <
                unvisited U s :=
              unvisited_cons_lt hu hv _ _
            exact crawlLinks_fuel_stable (B := pyOr b u) (n := unvisited U s)
              (fun m hm fm gm um sm hum hmm hfm hgm =>
                crawl_fuel_stable hB hClosed m fm gm um sm hum hmm hfm hgm)
              (by omega) (by omega) hrefs _
              (fun h hh hne a hj hsw => hClosed u hu text hrefs hfetch h hh hne a hj hsw)
              hs2
  · intro hlog
    refine crawl_pres (P := fun t => ∀ x ∈ t.fetchLog, x ∈ t.visited) ?_ ?_ f u b s hlog
    · intro w t hw hp x hx
      rcases List.mem_cons.1 hx with hx | hx
      · exact hx ▸ List.mem_cons_self _ _
      · exact List.mem_cons_of_mem _ (hp x hx)
    · intro w txt t hw hp x hx
      rcases List.mem_cons.1 hx with hx | hx
      · exact hx ▸ List.mem_cons_self _ _
      · exact List.mem_cons_of_mem _ (hp x hx)

/-- Witness for C7, at the cyclic two-page site A → B → A itself: its two
URLs form the finite universe, which is closed under the site's own in-scope
link resolutions, and fuels 3 and 7 (both above the measure 2) agree. -/
theorem c7_crawl_terminates_witness :
    ("https://e.com" ∈ ({"https://e.com", "https://e.com/b"} : Finset String) ∧
        pyOr none "https://e.com" ≠ "" ∧
        unvisited {"https://e.com", "https://e.com/b"} initState < 3 ∧
        unvisited {"https://e.com", "https://e.com/b"} initState < 7) ∧
      crawl envCycle 3 "https://e.com" none initState =
        crawl envCycle 7 "https://e.com" none initState :=
  ⟨⟨by decide, by decide, by decide, by decide⟩,
    (c7_crawl_terminates envCycle {"https://e.com", "https://e.com/b"}
      "https://e.com" none initState (by decide) (by decide)
      (by
        intro x hx text links hfetch h hh hne a hj hsw
        have hx' : x = "https://e.com" ∨ x = "https://e.com/b" := by simpa using hx
        rcases hx' with rfl | rfl
        · have h2 : (some ("page a", ["/b"]) : Option (String × List String)) =
              some (text, links) := by rw [← hfetch]; decide
          obtain ⟨h3, h4⟩ : "page a" = text ∧ ["/b"] = links := by simpa using h2
          subst h3
          subst h4
          have hb : h = "/b" := by simpa using hh
          subst hb
          have h5 : (some "https://e.com/b" : Option String) = some a := by
            rw [← hj]; decide
          obtain h6 : "https://e.com/b" = a := by simpa using h5
          subst h6
          decide
        · have h2 : (some ("page b", ["https://e.com"]) : Option (String × List String)) =
              some (text, links) := by rw [← hfetch]; decide
          obtain ⟨h3, h4⟩ : "page b" = text ∧ ["https://e.com"] = links := by
            simpa using h2
          subst h3
          subst h4
          have hb : h = "https://e.com" := by simpa using hh
          subst hb
          have h5 : (some "https://e.com" : Option String) = some a := by
            rw [← hj]; decide
          obtain h6 : "https://e.com" = a := by simpa using h5
          subst h6
          decide)
      3 7 (by decide) (by decide)).1⟩

